import Mathlib

/-!
Shallow embedding of the metrics aggregation and failure-attribution engine of
the Automated-DevOps-Pipeline-Monitor repository.

Sources embedded:
- `src/api/routers/analytics.py` (overview rates, performance median, MTTR,
  bucketizer, trend series, duration helper),
- `src/api/core/github_client.py` (`filter_ci_cd_runs`),
- `src/monitor/monitor.py` (poll-job `analyze` digest, dedup by `head_sha`,
  `format_failure_block`).

Modelling conventions:
- Timestamps (`updated_at`, `run_started_at`) are represented by their parsed
  value as a natural number of seconds since the epoch (`Option Nat`; `none`
  means the field is missing or unparseable, exactly where Python's
  `_parse_ts`/`isoparse` yields no usable value).  ISO-8601 UTC timestamp
  strings of the fixed GitHub format compare in the same order as the instants
  they denote, so string-keyed sorts in the source are modelled by sorts on
  the numeric value, with a missing field mapped to the minimal key (Python
  uses `datetime.min` or `""` as the default key in those spots).
- Python's `list.sort` is a stable sort; any two stable sorts with the same
  key agree on every input, so it is modelled by `List.insertionSort`
  (Mathlib's insertion sort is stable).  `reverse=True` keeps ties in input
  order, which corresponds to sorting with the reversed `le` relation.
- Python floats are modelled by `ℚ`; `round(x, 2)` is modelled by rounding
  half-to-even (Python's rounding mode) at the second decimal.
- Fallible code (an expression that can raise) is modelled with `Option`:
  `none` is the raised exception.
-/

namespace PipelineMonitor

/-! ### String helpers (Python `str.lower` and substring containment) -/

/-- Python `s.lower()`, character by character (ASCII workflow names). -/
def lowerStr (s : String) : List Char :=
  s.data.map Char.toLower

/-- Source: `startsWithChars pat l` : `l` begins with `pat`. -/
def startsWithChars : List Char → List Char → Bool
  | [], _ => true
  | _ :: _, [] => false
  | a :: as, b :: bs => a == b && startsWithChars as bs

/-- Source: `containsChars pat l` : Python `pat in l` substring containment. -/
def containsChars (pat : List Char) : List Char → Bool
  | [] => pat.isEmpty
  | t :: ts => startsWithChars pat (t :: ts) || containsChars pat ts

/-- Source: `keyword in run.get("name", "").lower()` from
`github_client.filter_ci_cd_runs`. -/
def nameHasKeyword (name : String) (kw : String) : Bool :=
  containsChars kw.data (lowerStr name)

/-! ### Run records (the dictionaries consumed by both analytics paths) -/

/-- One workflow-run record, with exactly the fields the analytics code reads.
`head_commit.message` and `head_commit.author.name` are flattened to
`commit_message` / `author_name` (`none` when the nested dict or key is
missing). -/
structure RunRecord where
  id : Nat
  name : String
  display_title : Option String
  status : String
  conclusion : Option String
  head_branch : Option String
  head_sha : Option String
  commit_message : Option String
  author_name : Option String
  run_started_at : Option Nat
  updated_at : Option Nat
  html_url : Option String
deriving DecidableEq

/-- Sort key used for every `updated_at`-keyed sort: the parsed value, with a
missing timestamp mapped to the minimal key (`datetime.min` in
`monitor.analyze`, `""` in `_calculate_mttr`). -/
def updKey (r : RunRecord) : Nat :=
  r.updated_at.getD 0

/-- Source: `run.get("status") == "completed"`. -/
def isCompleted (r : RunRecord) : Bool :=
  r.status == "completed"

/-- Source: `run.get("conclusion") == "success"`. -/
def isSuccess (r : RunRecord) : Bool :=
  r.conclusion == some "success"

/-- The API's failure test: `conclusion in ["failure", "timed_out"]`. -/
def isFailedApi (r : RunRecord) : Bool :=
  r.conclusion == some "failure" || r.conclusion == some "timed_out"

/-- Source: `monitor.analyze`'s failure states: `{"failure", "timed_out"}`, plus
`"cancelled"` when `INCLUDE_CANCELLED` is set. -/
def failureStates (includeCancelled : Bool) : List String :=
  if includeCancelled then ["failure", "timed_out", "cancelled"]
  else ["failure", "timed_out"]

/-- Source: `run.get("conclusion") in failure_states`. -/
def isFailureIn (states : List String) (r : RunRecord) : Bool :=
  match r.conclusion with
  | some c => states.contains c
  | none => false

/-- Source: `completed_runs = [r for r in runs if r.get("status") == "completed"]`. -/
def completedOf (runs : List RunRecord) : List RunRecord :=
  runs.filter isCompleted

/-! ### Rounding (Python `round(x, 2)`) -/

/-- Round half to even to an integer (Python's `round` mode on the exact
rational value). -/
def rhe (x : ℚ) : ℤ :=
  if x - ⌊x⌋ < 1/2 then ⌊x⌋
  else if 1/2 < x - ⌊x⌋ then ⌊x⌋ + 1
  else if ⌊x⌋ % 2 = 0 then ⌊x⌋ else ⌊x⌋ + 1

/-- Python `round(x, 2)`. -/
def pyRound2 (x : ℚ) : ℚ :=
  (rhe (100 * x) : ℚ) / 100

/-! ### Durations (`analytics._calculate_duration` and its call sites) -/

/-- Source: `_calculate_duration`: `updated_at − run_started_at` in whole seconds,
`0` when either timestamp is missing or unparseable. -/
def calculate_duration (r : RunRecord) : ℤ :=
  match r.run_started_at, r.updated_at with
  | some s, some u => (u : ℤ) - (s : ℤ)
  | _, _ => 0

/-- The duration-collection loop shared by the API endpoints:
`if duration > 0: durations.append(duration / 60.0)`. -/
def durationsMinutes (runs : List RunRecord) : List ℚ :=
  runs.filterMap fun r =>
    if 0 < calculate_duration r then some ((calculate_duration r : ℚ) / 60)
    else none

/-! ### Overview rates (`get_analytics_overview`, lines 35-56 and 87-92) -/

/-- Source: `success_rate = (len(successful_runs) / len(completed_runs)) * 100`. -/
def rawSuccessRate (completed : List RunRecord) : ℚ :=
  ((completed.filter isSuccess).length : ℚ) / (completed.length : ℚ) * 100

/-- The `(success_rate, failure_rate)` pair reported by
`get_analytics_overview`: the all-zero early return when no completed run
exists, otherwise `round(success_rate, 2)` and
`round(100 - success_rate, 2)`. -/
def analytics_overview_rates (runs : List RunRecord) : ℚ × ℚ :=
  let completed := completedOf runs
  if completed = [] then (0, 0)
  else (pyRound2 (rawSuccessRate completed), pyRound2 (100 - rawSuccessRate completed))

/-- Source: `get_failure_analysis` line 391:
`round((len(failed_runs) / len(completed_runs)) * 100, 2) if completed_runs
else 0`. -/
def failure_analysis_rate (runs : List RunRecord) : ℚ :=
  let completed := completedOf runs
  if completed = [] then 0
  else pyRound2 (((completed.filter isFailedApi).length : ℚ) / (completed.length : ℚ) * 100)

/-! ### Sorting duration samples; the performance median
(`get_performance_metrics` lines 269-274) -/

/-- Source: `durations.sort()` — ascending stable sort. -/
def sortedDurations (ds : List ℚ) : List ℚ :=
  ds.insertionSort (· ≤ ·)

/-- Source: `median_duration = durations[len(durations) // 2]` after the ascending
sort (the guard in the endpoint ensures the list is non-empty; index out of
range is modelled by the default `0`). -/
def medianDuration (ds : List ℚ) : ℚ :=
  (sortedDurations ds).getD (ds.length / 2) 0

/-! ### Ordering relations for record sorts -/

/-- The order of `ci_cd_runs.sort(key=..., reverse=True)` in
`monitor.analyze`: newest `updated_at` first. -/
def newestFirst (a b : RunRecord) : Prop :=
  updKey b ≤ updKey a

instance : DecidableRel newestFirst := fun _ _ => Nat.decLe _ _

instance : IsTotal RunRecord newestFirst :=
  ⟨fun a b => le_total (updKey b) (updKey a)⟩

instance : IsTrans RunRecord newestFirst :=
  ⟨fun _ _ _ h1 h2 => le_trans h2 h1⟩

/-- The order of `runs.sort(key=lambda x: x.get("updated_at", ""))` in
`_calculate_mttr`: oldest first. -/
def oldestFirst (a b : RunRecord) : Prop :=
  updKey a ≤ updKey b

instance : DecidableRel oldestFirst := fun _ _ => Nat.decLe _ _

instance : IsTotal RunRecord oldestFirst :=
  ⟨fun a b => le_total (updKey a) (updKey b)⟩

instance : IsTrans RunRecord oldestFirst :=
  ⟨fun _ _ _ h1 h2 => le_trans h1 h2⟩

/-- Source: `monitor.analyze` step 2, first half: sort newest-updated first
(stable, ties keep input order, exactly like `reverse=True`). -/
def sortNewestFirst (runs : List RunRecord) : List RunRecord :=
  runs.insertionSort newestFirst

/-- Source: `_calculate_mttr`'s in-place `runs.sort(...)`, ascending. -/
def sortOldestFirst (runs : List RunRecord) : List RunRecord :=
  runs.insertionSort oldestFirst

/-! ### Deduplication by commit (`monitor.analyze` step 2) -/

/-- Python truthiness of `sha = r.get("head_sha")`: `none` and the empty
string are falsy and are skipped by the dedup loop. -/
def truthySha (r : RunRecord) : Option String :=
  match r.head_sha with
  | some s => if s = "" then none else some s
  | none => none

/-- The `latest_by_sha` loop: in order, keep the first record seen per truthy
`head_sha` (`dict` insertion order gives the output order). -/
def dedupeAux (seen : List String) : List RunRecord → List RunRecord
  | [] => []
  | r :: rs =>
    match truthySha r with
    | some s => if s ∈ seen then dedupeAux seen rs else r :: dedupeAux (s :: seen) rs
    | none => dedupeAux seen rs

/-- Source: `monitor.analyze` step 2: sort newest-first, then keep the first record
per distinct `head_sha`. -/
def dedupe (runs : List RunRecord) : List RunRecord :=
  dedupeAux [] (sortNewestFirst runs)

/-! ### The poll-job digest (`monitor.analyze`) -/

/-- Source: `monitor.analyze` step 1, name filter:
`r.get("name") not in ["Monitor Workflows", "monitor", "Monitor"]`. -/
def monitorNameOk (r : RunRecord) : Bool :=
  !(r.name == "Monitor Workflows" || r.name == "monitor" || r.name == "Monitor")

/-- The list comprehension applying `monitorNameOk`. -/
def monitorNameFilter (runs : List RunRecord) : List RunRecord :=
  runs.filter monitorNameOk

/-- Source: `monitor.analyze` window filter: keep records with a parseable
`updated_at` that is `>= cutoff`. -/
def inWindow (cutoff : Nat) (r : RunRecord) : Bool :=
  match r.updated_at with
  | some t => cutoff ≤ t
  | none => false

/-- The digest dictionary returned by `monitor.analyze`. -/
structure MonitorDigest where
  window : Nat
  successes : Nat
  failures : Nat
  avg_duration_min : Option ℚ
  mttr_min : Option ℚ
deriving DecidableEq

/-- Source: `monitor.analyze` step 7: duration samples in seconds over completed runs
with both timestamps parseable (no positivity check in this path). -/
def monitorDurations (completed : List RunRecord) : List ℚ :=
  completed.filterMap fun r =>
    match r.run_started_at, r.updated_at with
    | some s, some u => some (((u : ℤ) - (s : ℤ) : ℤ) : ℚ)
    | _, _ => none

/-- Source: `avg = round(sum(durations) / len(durations) / 60.0, 2) if durations else
None`. -/
def monitorAvg (completed : List RunRecord) : Option ℚ :=
  let ds := monitorDurations completed
  if ds = [] then none else some (pyRound2 (ds.sum / (ds.length : ℚ) / 60))

/-- Source: `monitor.analyze` step 8: for each completed run in a failure state with a
parseable `updated_at`, the gap in seconds to the earliest strictly-later
completed success, skipped when no later success exists. -/
def monitorMttrSamples (completed : List RunRecord) (states : List String) : List ℚ :=
  completed.filterMap fun fr =>
    if isFailureIn states fr then
      match fr.updated_at with
      | none => none
      | some ft =>
        let laterSuccessTimes := completed.filterMap fun sr =>
          if isSuccess sr then
            match sr.updated_at with
            | some st => if ft < st then some st else none
            | none => none
          else none
        match laterSuccessTimes.min? with
        | some st => some (((st : ℤ) - (ft : ℤ) : ℤ) : ℚ)
        | none => none
    else none

/-- Source: `mttr = round(sum(mttrs) / len(mttrs) / 60.0, 2) if mttrs else None`. -/
def monitorMttr (completed : List RunRecord) (states : List String) : Option ℚ :=
  let ms := monitorMttrSamples completed states
  if ms = [] then none else some (pyRound2 (ms.sum / (ms.length : ℚ) / 60))

/-- Source: `monitor.analyze` steps 4-8 over the analyzed subset: the early all-zero
return (with `None` durations) on an empty subset, else counts and averages
over the completed runs of the subset. -/
def monitorDigestOf (includeCancelled : Bool) (subset : List RunRecord) : MonitorDigest :=
  if subset = [] then ⟨0, 0, 0, none, none⟩
  else
    let completed := subset.filter isCompleted
    let states := failureStates includeCancelled
    { window := completed.length
      successes := (completed.filter isSuccess).length
      failures := (completed.filter (isFailureIn states)).length
      avg_duration_min := monitorAvg completed
      mttr_min := monitorMttr completed states }

/-- Source: `monitor.analyze` steps 1-3: name filter, lookback window filter, dedupe
by commit, then `deduped[:30]`. -/
def monitorSubset (cutoff : Nat) (runs : List RunRecord) : List RunRecord :=
  (dedupe ((monitorNameFilter runs).filter (inWindow cutoff))).take 30

/-- Source: `monitor.analyze`, with the current time's cutoff
(`now − LOOKBACK_MINUTES`) and `INCLUDE_CANCELLED` as parameters. -/
def analyze (includeCancelled : Bool) (cutoff : Nat) (runs : List RunRecord) : MonitorDigest :=
  monitorDigestOf includeCancelled (monitorSubset cutoff runs)

/-! ### The API MTTR (`analytics._calculate_mttr`) -/

/-- The inner scan of `_calculate_mttr` over the ascending-sorted list: each
run in the API failure states contributes the gap in minutes to the first
later-positioned success, or no sample when none follows. -/
def mttrSamples : List RunRecord → List ℚ
  | [] => []
  | r :: rs =>
    if isFailedApi r then
      match rs.find? isSuccess with
      | some sr => (((updKey sr : ℤ) - (updKey r : ℤ) : ℤ) : ℚ) / 60 :: mttrSamples rs
      | none => mttrSamples rs
    else mttrSamples rs

/-- Source: `_calculate_mttr`: `0.0` on an empty list, else the mean of the recovery
samples over the list sorted ascending by `updated_at`, `0.0` when there are
no samples.  (The Python function sorts its argument in place; the value
computed is this one.) -/
def calculate_mttr (runs : List RunRecord) : ℚ :=
  if runs = [] then 0
  else
    let ms := mttrSamples (sortOldestFirst runs)
    if ms = [] then 0 else ms.sum / (ms.length : ℚ)

/-- Source: `_calculate_mttr` with its side effect made explicit: the returned value
together with the state of the caller's list after the call (`runs.sort(...)`
mutates it in place; the empty-list early return happens before the sort). -/
def calculate_mttr_state (runs : List RunRecord) : ℚ × List RunRecord :=
  if runs = [] then (0, runs)
  else (calculate_mttr runs, sortOldestFirst runs)

/-! ### The API collection filter (`github_client.filter_ci_cd_runs`) -/

/-- Source: `filter_ci_cd_runs`: drop a run iff `exclude_monitor` and its lowercased
name contains `"monitor"` or `"analytics"`. -/
def filter_ci_cd_runs (runs : List RunRecord) (exclude_monitor : Bool) : List RunRecord :=
  runs.filter fun r =>
    !(exclude_monitor &&
      (nameHasKeyword r.name "monitor" || nameHasKeyword r.name "analytics"))

/-! ### Bucketizer (`analytics._group_runs_by_time`) -/

/-- The three accepted granularities (the route regex rejects the rest). -/
inductive Granularity where
  | hourly
  | daily
  | weekly
deriving DecidableEq

/-- The period key of a record: its `updated_at` truncated to the hour, the
UTC day, or the Monday of its week.  The `strftime` string of the source is
represented injectively by the truncated unit count (hours or days since the
epoch; the epoch day is a Thursday, hence the `+ 3` in the weekday
computation).  `none` when `updated_at` is missing (the `isoparse` failure
that the source catches with `continue`). -/
def periodKey (g : Granularity) (r : RunRecord) : Option Nat :=
  r.updated_at.map fun t =>
    match g with
    | .hourly => t / 3600
    | .daily => t / 86400
    | .weekly => t / 86400 - ((t / 86400 + 3) % 7)

/-- Source: `time_groups[period_key].append(run)` on a `defaultdict(list)`: append to
the existing bucket, or append a fresh bucket at the end (Python dicts
preserve first-insertion key order). -/
def insertGroup (k : Nat) (r : RunRecord) :
    List (Nat × List RunRecord) → List (Nat × List RunRecord)
  | [] => [(k, [r])]
  | (k', rs) :: gs =>
    if k = k' then (k', rs ++ [r]) :: gs else (k', rs) :: insertGroup k r gs

/-- The grouping loop of `_group_runs_by_time`. -/
def groupRunsAux (g : Granularity) :
    List (Nat × List RunRecord) → List RunRecord → List (Nat × List RunRecord)
  | gs, [] => gs
  | gs, r :: rs =>
    groupRunsAux g (match periodKey g r with | some k => insertGroup k r gs | none => gs) rs

/-- Source: `_group_runs_by_time(runs, granularity)`. -/
def group_runs_by_time (runs : List RunRecord) (g : Granularity) :
    List (Nat × List RunRecord) :=
  groupRunsAux g [] runs

/-! ### Trend series (`get_build_trends` loop and `_get_duration_trend`) -/

/-- The body of the `get_build_trends` loop for one period bucket:
`(period, successful, failed, round(avg_duration, 2))`, with the zero branch
when the bucket has no completed run. -/
def buildTrendEntry (p : Nat × List RunRecord) : Nat × Nat × Nat × ℚ :=
  let completed := p.2.filter isCompleted
  if completed = [] then (p.1, 0, 0, 0)
  else
    let ds := durationsMinutes completed
    (p.1, (completed.filter isSuccess).length,
      (completed.filter isFailedApi).length,
      pyRound2 (if ds = [] then 0 else ds.sum / (ds.length : ℚ)))

/-- The `get_build_trends` loop: one entry per bucket of the mapping —
`for period, period_runs in time_series.items()`. -/
def buildTrendsEntries (runs : List RunRecord) (g : Granularity) :
    List (Nat × Nat × Nat × ℚ) :=
  (group_runs_by_time runs g).map buildTrendEntry

/-- Source: `daily_groups.get(date_str, [])`. -/
def lookupGroup (gs : List (Nat × List RunRecord)) (k : Nat) : List RunRecord :=
  ((gs.find? fun p => p.1 == k).map Prod.snd).getD []

/-- One day's value in `_get_duration_trend`: `round(avg_duration, 2)` of the
positive-duration minutes of the day's runs, `0.0` for a day with no runs or
no positive durations. -/
def dayAvgDuration (dayRuns : List RunRecord) : ℚ :=
  let ds := durationsMinutes dayRuns
  pyRound2 (if ds = [] then 0 else ds.sum / (ds.length : ℚ))

/-- Source: `_get_duration_trend(runs, lookback_days)` with "today" a parameter: one
entry per day `today − i` for `i < lookback_days`, reversed to chronological
order. -/
def get_duration_trend (runs : List RunRecord) (lookback_days : Nat) (today : Nat) :
    List (Nat × ℚ) :=
  let daily := group_runs_by_time runs .daily
  (((List.range lookback_days).map fun i =>
    (today - i, dayAvgDuration (lookupGroup daily (today - i))))).reverse

/-! ### Failure alert formatter (`monitor.format_failure_block`) -/

/-- Python `a or b` on an optional string: the empty string is falsy. -/
def pyOrStr (o : Option String) (d : String) : String :=
  match o with
  | some s => if s = "" then d else s
  | none => d

/-- Split a character list at newlines. -/
def splitLinesChars : List Char → List (List Char)
  | [] => [[]]
  | c :: cs =>
    if c = '\n' then [] :: splitLinesChars cs
    else
      match splitLinesChars cs with
      | [] => [[c]]
      | l :: ls => (c :: l) :: ls

/-- Python `str.splitlines` restricted to what the formatter observes:
the empty string yields `[]` (hence `[0]` raises), otherwise split on
newlines. -/
def pySplitlines (s : String) : List String :=
  if s = "" then [] else (splitLinesChars s.data).map List.asString

/-- Python interpolation of a possibly-`None` string field. -/
def optRepr (o : Option String) : String :=
  match o with
  | some s => s
  | none => "None"

/-- Python interpolation of the (parsed) `updated_at` field. -/
def optTimeRepr (o : Option Nat) : String :=
  match o with
  | some t => toString t
  | none => "None"

/-- Source: `monitor.format_failure_block`: the four Slack block texts, or `none` when
the function raises.  The only partial step is
`(head_commit.get("message") or "").splitlines()[0]`, which raises
`IndexError` when the commit message is missing or empty. -/
def format_failure_block (r : RunRecord) : Option (List String) :=
  let name := if r.name = "" then pyOrStr r.display_title "Workflow" else r.name
  let sha := (r.head_sha.getD "").take 7
  match (pySplitlines (r.commit_message.getD "")).head? with
  | none => none
  | some message =>
    let author := pyOrStr r.author_name "unknown"
    some
      [ "*CI/CD failure:* `" ++ name ++ "` on *" ++ optRepr r.head_branch ++ "@" ++ sha ++ "*"
      , "*Conclusion:* `" ++ optRepr r.conclusion ++ "`"
      , "*By:* " ++ author
      , "*When:* " ++ optTimeRepr r.updated_at
      , "*Commit:* " ++ message ++ " <" ++ optRepr r.html_url ++ "|Open run>"
      ]

/-! ### Concrete records used by witnesses and counterexamples -/

/-- A plain successful completed CI build. -/
def baseRun : RunRecord :=
  { id := 0, name := "build", display_title := none, status := "completed"
    conclusion := some "success", head_branch := some "main"
    head_sha := some "sha0", commit_message := some "msg"
    author_name := some "alice", run_started_at := some 0
    updated_at := some 60, html_url := some "http://example/run0" }

/-- A completed successful run of a workflow named `"CI Monitor"`. -/
def ciMonitorRun : RunRecord :=
  { baseRun with id := 1, name := "CI Monitor", head_sha := some "sha1"
                 run_started_at := some 900, updated_at := some 1000 }

/-- A completed run updated on epoch day 5. -/
def trendRec : RunRecord :=
  { baseRun with id := 2, head_sha := some "sha2"
                 run_started_at := some 431940, updated_at := some 432000 }

/-- A completed run whose duration is exactly `0` seconds. -/
def zeroDurRun : RunRecord :=
  { baseRun with id := 3, head_sha := some "sha3"
                 run_started_at := some 100, updated_at := some 100 }

/-- A failure at time 100 (recovers at `ms2`, 60 seconds later). -/
def mf1 : RunRecord :=
  { baseRun with id := 4, conclusion := some "failure", head_sha := some "sha4"
                 run_started_at := some 40, updated_at := some 100 }

/-- A success at time 160. -/
def ms2 : RunRecord :=
  { baseRun with id := 5, head_sha := some "sha5"
                 run_started_at := some 110, updated_at := some 160 }

/-- A failure at time 300, with no later success. -/
def mf3 : RunRecord :=
  { baseRun with id := 6, conclusion := some "failure", head_sha := some "sha6"
                 run_started_at := some 250, updated_at := some 300 }

/-- A record with no commit message and no author. -/
def noMsgRun : RunRecord :=
  { baseRun with id := 7, commit_message := none, author_name := none }

/-- Updated at time 100. -/
def earlierRun : RunRecord :=
  { baseRun with id := 8, head_sha := some "sha8", updated_at := some 100 }

/-- Updated at time 200. -/
def laterRun : RunRecord :=
  { baseRun with id := 9, head_sha := some "sha9", updated_at := some 200 }

/-- First report for commit `"dup"`, updated at 100. -/
def dupA1 : RunRecord :=
  { baseRun with id := 10, conclusion := some "failure", head_sha := some "dup"
                 updated_at := some 100 }

/-- Later report for commit `"dup"`, updated at 200. -/
def dupA2 : RunRecord :=
  { baseRun with id := 11, head_sha := some "dup", updated_at := some 200 }

/-- A run of the workflow named exactly `"Monitor"` (dropped by the poll
job's name filter). -/
def monNamedRun : RunRecord :=
  { baseRun with id := 12, name := "Monitor", head_sha := some "sha12" }

/-- A completed success for the rate witnesses. -/
def c6s : RunRecord := { baseRun with id := 13, head_sha := some "sha13" }

/-- A completed failure for the rate witnesses. -/
def c6f : RunRecord :=
  { baseRun with id := 14, conclusion := some "failure", head_sha := some "sha14" }

/-! ## Theorems -/

/-! ### General-purpose helper lemmas -/

theorem pyRound2_zero : pyRound2 0 = 0 := by
  norm_num [pyRound2, rhe]

/-! ### C1: the performance median -/

/-- C1 counterexample: on the duration list `[1,2,3,4]` (minutes) the code
reports `durations[4 // 2] = 3`, the upper-middle element, not `2` as the
claim's lower-middle example requires. -/
theorem median_1234_ne_two : ¬ medianDuration [1, 2, 3, 4] = 2 := by decide

/-- C1 (amended): for a non-empty duration list, the reported median is the
element at index `⌊n/2⌋` of an ascending sorted permutation of the list (the
upper-middle element for even `n`), and is an element of the list; in
particular the median of `[1,2,3,4]` is `3` and the median of `[1,2,3]` is
`2`. -/
theorem median_amended (ds : List ℚ) (h : ds ≠ []) :
    (∃ s : List ℚ, s.Perm ds ∧ s.Sorted (· ≤ ·) ∧
      medianDuration ds = s.getD (ds.length / 2) 0) ∧
    medianDuration ds ∈ ds ∧
    medianDuration [1, 2, 3, 4] = 3 ∧ medianDuration [1, 2, 3] = 2 := by
  have hperm : (sortedDurations ds).Perm ds := List.perm_insertionSort _ _
  have hlen : (sortedDurations ds).length = ds.length := hperm.length_eq
  have hpos : 0 < ds.length := List.length_pos.mpr h
  have hidx : ds.length / 2 < (sortedDurations ds).length := by
    rw [hlen]; exact Nat.div_lt_self hpos (by norm_num)
  refine ⟨⟨sortedDurations ds, hperm, List.sorted_insertionSort _ _, rfl⟩, ?_, by decide, by decide⟩
  have : medianDuration ds = (sortedDurations ds)[ds.length / 2] := by
    unfold medianDuration
    exact List.getD_eq_getElem _ _ hidx
  rw [this]
  exact hperm.subset (List.getElem_mem _)

/-- C1 witness: the amended statement applied to the non-empty list
`[1,2,3]`. -/
theorem median_amended_witness :
    (∃ s : List ℚ, s.Perm [1, 2, 3] ∧ s.Sorted (· ≤ ·) ∧
      medianDuration [1, 2, 3] = s.getD (([1, 2, 3] : List ℚ).length / 2) 0) ∧
    medianDuration [1, 2, 3] ∈ ([1, 2, 3] : List ℚ) ∧
    medianDuration [1, 2, 3, 4] = 3 ∧ medianDuration [1, 2, 3] = 2 :=
  median_amended [1, 2, 3] (by decide)

/-! ### C7: the failure alert formatter -/

/-- C7 (code bug): `format_failure_block` raises `IndexError` on a record
with a missing (or empty) commit message, because `"".splitlines()` is the
empty list and the source indexes `[0]` into it; with a non-empty message the
same record formats fine, substituting `"unknown"` for the missing author. -/
theorem format_failure_block_raises :
    format_failure_block noMsgRun = none ∧
    format_failure_block { noMsgRun with commit_message := some "fix" } =
      some
        [ "*CI/CD failure:* `build` on *main@sha0*"
        , "*Conclusion:* `success`"
        , "*By:* unknown"
        , "*When:* 60"
        , "*Commit:* fix <http://example/run0|Open run>"
        ] := by
  constructor <;> decide

/-! ### C9: the MTTR computation mutates its input -/

/-- C9 (code bug): `_calculate_mttr` sorts the caller's list in place.  On
the newest-first two-element list `[laterRun, earlierRun]` (the order
`get_mttr_analysis` passes), the list state after the call is the ascending
`[earlierRun, laterRun]`, a different list — so the caller's subsequent
"last 10 failures" slice reads oldest-first data. -/
theorem mttr_sorts_in_place :
    (calculate_mttr_state [laterRun, earlierRun]).2 = [earlierRun, laterRun] ∧
    [earlierRun, laterRun] ≠ ([laterRun, earlierRun] : List RunRecord) := by
  constructor <;> decide

/-! ### C3: deduplication by commit -/

theorem truthySha_some {r : RunRecord} {s : String} (h : truthySha r = some s) :
    r.head_sha = some s := by
  cases hh : r.head_sha with
  | none => simp [truthySha, hh] at h
  | some t =>
    simp only [truthySha, hh] at h
    by_cases ht : t = ""
    · simp [ht] at h
    · simp [ht] at h
      exact h ▸ rfl

theorem truthySha_of_sha {r : RunRecord} {s : String} (h : r.head_sha = some s)
    (hne : s ≠ "") : truthySha r = some s := by
  simp [truthySha, h, hne]

theorem dedupeAux_sublist (seen : List String) (l : List RunRecord) :
    (dedupeAux seen l).Sublist l := by
  induction l generalizing seen with
  | nil => simp [dedupeAux]
  | cons r rs ih =>
    unfold dedupeAux
    cases truthySha r with
    | none => exact (ih seen).trans (List.sublist_cons_self r rs)
    | some s =>
      dsimp only
      by_cases hs : s ∈ seen
      · rw [if_pos hs]
        exact (ih seen).trans (List.sublist_cons_self r rs)
      · rw [if_neg hs]
        exact (ih (s :: seen)).cons₂ r

theorem dedupeAux_mem_sha {seen : List String} {l : List RunRecord} {r : RunRecord}
    (hr : r ∈ dedupeAux seen l) : ∃ s, truthySha r = some s ∧ s ∉ seen := by
  induction l generalizing seen with
  | nil => simp [dedupeAux] at hr
  | cons a rs ih =>
    unfold dedupeAux at hr
    cases h : truthySha a with
    | none => rw [h] at hr; exact ih hr
    | some s =>
      rw [h] at hr
      dsimp only at hr
      by_cases hs : s ∈ seen
      · rw [if_pos hs] at hr; exact ih hr
      · rw [if_neg hs] at hr
        rcases List.mem_cons.1 hr with rfl | hmem
        · exact ⟨s, h, hs⟩
        · obtain ⟨s', h', hs'⟩ := ih hmem
          exact ⟨s', h', fun hc => hs' (List.mem_cons_of_mem _ hc)⟩

theorem dedupeAux_pairwise (seen : List String) (l : List RunRecord) :
    (dedupeAux seen l).Pairwise (fun a b => a.head_sha ≠ b.head_sha) := by
  induction l generalizing seen with
  | nil => simp [dedupeAux]
  | cons a rs ih =>
    unfold dedupeAux
    cases hta : truthySha a with
    | none => exact ih seen
    | some s =>
      dsimp only
      by_cases hs : s ∈ seen
      · rw [if_pos hs]; exact ih seen
      · rw [if_neg hs]
        refine List.Pairwise.cons ?_ (ih (s :: seen))
        intro b hb
        obtain ⟨s', h', hs'⟩ := dedupeAux_mem_sha hb
        rw [truthySha_some hta, truthySha_some h']
        intro hc
        injection hc with hc
        exact hs' (hc ▸ List.mem_cons_self s seen)

theorem dedupe_sorted_newestFirst (runs : List RunRecord) :
    (dedupe runs).Pairwise newestFirst :=
  List.Pairwise.sublist (dedupeAux_sublist [] (sortNewestFirst runs))
    (List.sorted_insertionSort newestFirst runs)

theorem dedupeAux_max {l : List RunRecord}
    (hl : l.Pairwise newestFirst) :
    ∀ {seen : List String} {r : RunRecord} {s : String}, r ∈ l → r.head_sha = some s →
      s ≠ "" → s ∉ seen →
      ∃ r', r' ∈ dedupeAux seen l ∧ r'.head_sha = some s ∧ updKey r ≤ updKey r' := by
  induction l with
  | nil => intro seen r s hr; simp at hr
  | cons a rs ih =>
    intro seen r s hr hsha hne hseen
    have h0 : ∀ b ∈ rs, updKey b ≤ updKey a := (List.pairwise_cons.1 hl).1
    have ht : rs.Pairwise newestFirst := (List.pairwise_cons.1 hl).2
    unfold dedupeAux
    cases hta : truthySha a with
    | some s0 =>
      dsimp only
      by_cases hs0 : s0 ∈ seen
      · rw [if_pos hs0]
        have hmem : r ∈ rs := by
          rcases List.mem_cons.1 hr with rfl | hmem
          · exfalso
            rw [truthySha_of_sha hsha hne] at hta
            injection hta with h'
            exact hseen (h' ▸ hs0)
          · exact hmem
        exact ih ht hmem hsha hne hseen
      · rw [if_neg hs0]
        by_cases hss : s = s0
        · subst hss
          refine ⟨a, List.mem_cons_self _ _, truthySha_some hta, ?_⟩
          rcases List.mem_cons.1 hr with rfl | hmem
          · exact le_refl _
          · exact h0 r hmem
        · have hmem : r ∈ rs := by
            rcases List.mem_cons.1 hr with rfl | hmem
            · exfalso
              rw [truthySha_of_sha hsha hne] at hta
              injection hta with h'
              exact hss h'
            · exact hmem
          obtain ⟨r', hr', hsha', hle⟩ := ih ht hmem hsha hne (by
            intro hc
            rcases List.mem_cons.1 hc with h' | h'
            · exact hss h'
            · exact hseen h')
          exact ⟨r', List.mem_cons_of_mem _ hr', hsha', hle⟩
    | none =>
      have hmem : r ∈ rs := by
        rcases List.mem_cons.1 hr with rfl | hmem
        · exfalso
          rw [truthySha_of_sha hsha hne] at hta
          cases hta
        · exact hmem
      exact ih ht hmem hsha hne hseen

/-- C3 (confirmed): `monitor.analyze`'s dedup step (a) never increases the
record count, (b) keeps at most one record per distinct `head_sha`, (c)
yields a newest-updated-first list (missing `updated_at` sorting as the
minimal key), and (d) for every commit present in the input with a truthy
sha, keeps a record of that commit whose `updated_at` key is at least that of
every input record for the same commit — in particular the most-recently
updated record for a commit is never dropped in favour of an older one. -/
theorem dedupe_spec (runs : List RunRecord) :
    (dedupe runs).length ≤ runs.length ∧
    (dedupe runs).Pairwise (fun a b => a.head_sha ≠ b.head_sha) ∧
    (dedupe runs).Pairwise newestFirst ∧
    ∀ r ∈ runs, ∀ s, r.head_sha = some s → s ≠ "" →
      ∃ r', r' ∈ dedupe runs ∧ r'.head_sha = some s ∧ updKey r ≤ updKey r' := by
  refine ⟨?_, dedupeAux_pairwise [] _, dedupe_sorted_newestFirst runs, ?_⟩
  · calc (dedupe runs).length ≤ (sortNewestFirst runs).length :=
          (dedupeAux_sublist [] _).length_le
      _ = runs.length := (List.perm_insertionSort _ _).length_eq
  · intro r hr s hsha hne
    have hmem : r ∈ sortNewestFirst runs :=
      (List.perm_insertionSort newestFirst runs).mem_iff.2 hr
    exact dedupeAux_max (List.sorted_insertionSort newestFirst runs) hmem hsha hne
      (List.not_mem_nil s)

/-- C3 witness: on two reports for commit `"dup"` (updated at 100 and 200),
the dedup keeps a record for `"dup"` at least as new as the older report. -/
theorem dedupe_spec_witness :
    ∃ r', r' ∈ dedupe [dupA1, dupA2] ∧ r'.head_sha = some "dup" ∧
      updKey dupA1 ≤ updKey r' :=
  (dedupe_spec [dupA1, dupA2]).2.2.2 dupA1 (by decide) "dup" (by decide) (by decide)

/-! ### C4: the self-monitoring exclusion filter -/

/-- C4 counterexample: a completed successful run of a workflow named
`"CI Monitor"` — its lowercased name contains `"monitor"`, yet the poll job's
digest analytics still count it (`window = 1`), because `monitor.analyze`
filters by exact name match only. -/
theorem ciMonitor_counted_by_digest :
    nameHasKeyword ciMonitorRun.name "monitor" = true ∧
    (analyze false 0 [ciMonitorRun]).window = 1 := by
  constructor <;> decide

/-- C4 (amended): the API collection path (`filter_ci_cd_runs`) excludes a
record iff its lowercased workflow name contains `"monitor"` or
`"analytics"`; the poll job (`monitor.analyze`) excludes only the exact
names `"Monitor Workflows"`, `"monitor"`, `"Monitor"`.  Hence a run named
`"CI Monitor"` is excluded from the API analytics but not from the poll
job's digest. -/
theorem exclusion_filters_spec :
    (∀ (rs : List RunRecord) (r : RunRecord), r ∈ filter_ci_cd_runs rs true ↔
      r ∈ rs ∧ ¬(nameHasKeyword r.name "monitor" = true ∨
        nameHasKeyword r.name "analytics" = true)) ∧
    (∀ (rs : List RunRecord) (r : RunRecord), r ∈ monitorNameFilter rs ↔
      r ∈ rs ∧ r.name ∉ (["Monitor Workflows", "monitor", "Monitor"] : List String)) ∧
    filter_ci_cd_runs [ciMonitorRun] true = [] ∧
    monitorNameFilter [ciMonitorRun] = [ciMonitorRun] := by
  refine ⟨?_, ?_, by decide, by decide⟩
  · intro rs r
    simp [filter_ci_cd_runs, List.mem_filter, not_or]
  · intro rs r
    simp only [monitorNameFilter, monitorNameOk, List.mem_filter, not_or,
      Bool.not_eq_true', Bool.or_eq_false_iff, beq_eq_false_iff_ne, ne_eq,
      List.mem_cons, List.not_mem_nil, or_false]
    tauto

/-- C4 witness: the filter characterization instantiated at the
`"CI Monitor"` run. -/
theorem exclusion_filters_spec_witness :
    ciMonitorRun ∈ filter_ci_cd_runs [ciMonitorRun] true ↔
      ciMonitorRun ∈ [ciMonitorRun] ∧
        ¬(nameHasKeyword ciMonitorRun.name "monitor" = true ∨
          nameHasKeyword ciMonitorRun.name "analytics" = true) :=
  exclusion_filters_spec.1 [ciMonitorRun] ciMonitorRun

/-! ### C10: the digest analyzes at most the 30 newest deduplicated records -/

/-- C10 (confirmed): the poll-job digest is a function of
`deduped[:30]` alone — two inputs with the same analyzed subset give the
same digest; the subset never has more than 30 records; and every record of
the subset is at least as recently updated as every deduplicated record
beyond the first 30. -/
theorem analyze_take30 :
    (∀ (ic : Bool) (cutoff : Nat) (rs₁ rs₂ : List RunRecord),
      monitorSubset cutoff rs₁ = monitorSubset cutoff rs₂ →
      analyze ic cutoff rs₁ = analyze ic cutoff rs₂) ∧
    (∀ (cutoff : Nat) (rs : List RunRecord), (monitorSubset cutoff rs).length ≤ 30) ∧
    (∀ (cutoff : Nat) (rs : List RunRecord), ∀ a ∈ monitorSubset cutoff rs,
      ∀ b ∈ (dedupe ((monitorNameFilter rs).filter (inWindow cutoff))).drop 30,
        updKey b ≤ updKey a) := by
  refine ⟨?_, ?_, ?_⟩
  · intro ic cutoff rs₁ rs₂ h
    unfold analyze
    rw [h]
  · intro cutoff rs
    exact List.length_take_le 30 _
  · intro cutoff rs a ha b hb
    have hp : (dedupe ((monitorNameFilter rs).filter (inWindow cutoff))).Pairwise newestFirst :=
      dedupe_sorted_newestFirst _
    rw [← List.take_append_drop 30 (dedupe ((monitorNameFilter rs).filter (inWindow cutoff)))]
      at hp
    exact (List.pairwise_append.1 hp).2.2 a ha b hb

/-- C10 witness: adding a run that the poll job's own filters drop does not
change the digest. -/
theorem analyze_take30_witness :
    analyze false 0 [baseRun] = analyze false 0 [baseRun, monNamedRun] :=
  analyze_take30.1 false 0 [baseRun] [baseRun, monNamedRun] (by decide)

/-! ### C2: trend series and zero-filled periods -/

theorem insertGroup_inv {g : Granularity} {univ : List RunRecord} {k : Nat}
    {r0 : RunRecord} {acc : List (Nat × List RunRecord)}
    (hacc : ∀ p ∈ acc, ∀ r ∈ p.2, r ∈ univ ∧ periodKey g r = some p.1)
    (hr0 : r0 ∈ univ) (hk : periodKey g r0 = some k) :
    ∀ p ∈ insertGroup k r0 acc, ∀ r ∈ p.2, r ∈ univ ∧ periodKey g r = some p.1 := by
  induction acc with
  | nil =>
    intro p hp r hr
    simp only [insertGroup, List.mem_singleton] at hp
    subst hp
    simp only [List.mem_singleton] at hr
    subst hr
    exact ⟨hr0, hk⟩
  | cons q gs ih =>
    obtain ⟨k', rs⟩ := q
    intro p hp r hr
    by_cases hkk : k = k'
    · simp only [insertGroup, if_pos hkk, List.mem_cons] at hp
      rcases hp with rfl | hp
      · rcases List.mem_append.1 hr with h | h
        · exact hacc (k', rs) (List.mem_cons_self _ _) r h
        · simp only [List.mem_singleton] at h
          subst h
          exact ⟨hr0, by rw [hk, hkk]⟩
      · exact hacc p (List.mem_cons_of_mem _ hp) r hr
    · simp only [insertGroup, if_neg hkk] at hp
      rcases List.mem_cons.1 hp with rfl | hp
      · exact hacc (k', rs) (List.mem_cons_self _ _) r hr
      · exact ih (fun q hq => hacc q (List.mem_cons_of_mem _ hq)) p hp r hr

theorem groupRunsAux_inv (g : Granularity) (l : List RunRecord) :
    ∀ (acc : List (Nat × List RunRecord)) (univ : List RunRecord),
    (∀ p ∈ acc, ∀ r ∈ p.2, r ∈ univ ∧ periodKey g r = some p.1) →
    (∀ r ∈ l, r ∈ univ) →
    ∀ p ∈ groupRunsAux g acc l, ∀ r ∈ p.2, r ∈ univ ∧ periodKey g r = some p.1 := by
  induction l with
  | nil =>
    intro acc univ hacc _
    exact hacc
  | cons a rs ih =>
    intro acc univ hacc hsub
    unfold groupRunsAux
    cases hk : periodKey g a with
    | some k =>
      exact ih _ _ (insertGroup_inv hacc (hsub a (List.mem_cons_self _ _)) hk)
        (fun r hr => hsub r (List.mem_cons_of_mem _ hr))
    | none =>
      exact ih _ _ hacc (fun r hr => hsub r (List.mem_cons_of_mem _ hr))

theorem group_runs_sound (runs : List RunRecord) (g : Granularity) :
    ∀ p ∈ group_runs_by_time runs g, ∀ r ∈ p.2, r ∈ runs ∧ periodKey g r = some p.1 :=
  groupRunsAux_inv g runs [] runs (by simp) (fun _ hr => hr)

theorem lookupGroup_empty {runs : List RunRecord} {g : Granularity} {k : Nat}
    (h : ∀ r ∈ runs, periodKey g r ≠ some k) :
    lookupGroup (group_runs_by_time runs g) k = [] := by
  unfold lookupGroup
  cases hf : (group_runs_by_time runs g).find? (fun p => p.1 == k) with
  | none => rfl
  | some p =>
    show p.2 = []
    have hp : p ∈ group_runs_by_time runs g := List.mem_of_find?_eq_some hf
    have hkey : p.1 = k := by simpa using List.find?_some hf
    cases hrs : p.2 with
    | nil => rfl
    | cons r rs' =>
      exfalso
      have hr : r ∈ p.2 := by rw [hrs]; exact List.mem_cons_self _ _
      obtain ⟨hmem, hkeyr⟩ := group_runs_sound runs g p hp r hr
      exact h r hmem (hkey ▸ hkeyr)

/-- C2 counterexample: `get_build_trends` iterates only over the buckets of
the grouping — with one record (all in one day) and a 7-day lookback, the
trend series has exactly one entry, not seven; in-window periods with no
matching record are absent from its output, not zero-valued. -/
theorem build_trends_drops_empty_periods :
    (buildTrendsEntries [trendRec] Granularity.daily).length = 1 ∧ (1 : Nat) ≠ 7 := by
  constructor <;> decide

/-- C2 (amended): the daily helper trends (`_get_duration_trend`, and
`_get_failure_trend` built on the same loop) emit exactly one entry per day
of the lookback, zero-valued for a day matched by no record; the
`get_build_trends` series instead has exactly one entry per bucket of the
period mapping, so a period absent from the mapping is absent from that
output. -/
theorem duration_trend_zero_fill (runs : List RunRecord) (n today : Nat) :
    (get_duration_trend runs n today).length = n ∧
    (∀ p ∈ get_duration_trend runs n today,
      (∀ r ∈ runs, periodKey Granularity.daily r ≠ some p.1) → p.2 = 0) ∧
    ∀ g, (buildTrendsEntries runs g).length = (group_runs_by_time runs g).length := by
  refine ⟨by simp [get_duration_trend], ?_, fun g => by simp [buildTrendsEntries]⟩
  intro p hp hnone
  unfold get_duration_trend at hp
  rw [List.mem_reverse] at hp
  obtain ⟨i, _, hpe⟩ := List.mem_map.1 hp
  have hlk : lookupGroup (group_runs_by_time runs Granularity.daily) (today - i) = [] :=
    lookupGroup_empty (fun r hr => by
      have := hnone r hr
      rw [← hpe] at this
      exact this)
  rw [← hpe]
  simp [dayAvgDuration, hlk, durationsMinutes, pyRound2_zero]

/-- Evaluation of the daily trend on one record living outside the single
requested day. -/
theorem trend_eval_single : get_duration_trend [trendRec] 1 0 = [(0, 0)] := by
  have hg : group_runs_by_time [trendRec] Granularity.daily = [(5, [trendRec])] := by decide
  have hlk : lookupGroup [(5, [trendRec])] 0 = [] := by decide
  have hday : dayAvgDuration ([] : List RunRecord) = 0 := by
    simp [dayAvgDuration, durationsMinutes, pyRound2_zero]
  show (((List.range 1).map fun i =>
      (0 - i, dayAvgDuration
        (lookupGroup (group_runs_by_time [trendRec] Granularity.daily) (0 - i))))).reverse =
    [(0, 0)]
  rw [hg]
  simp [List.range_succ, hlk, hday]

/-- C2 witness: the zero-fill statement instantiated on one record and a
one-day lookback over a day the record does not fall in. -/
theorem duration_trend_zero_fill_witness :
    (get_duration_trend [trendRec] 1 0).length = 1 ∧ (((0 : Nat), (0 : ℚ)) : Nat × ℚ).2 = 0 :=
  ⟨(duration_trend_zero_fill [trendRec] 1 0).1,
    (duration_trend_zero_fill [trendRec] 1 0).2.1 (0, 0) (by simp [trend_eval_single])
      (by decide)⟩

/-! ### C5: MTTR samples and empty-case behavior -/

theorem mttrSamples_nil_of_no_failure {l : List RunRecord}
    (h : ∀ r ∈ l, isFailedApi r = false) : mttrSamples l = [] := by
  induction l with
  | nil => rfl
  | cons a rs ih =>
    unfold mttrSamples
    rw [h a (List.mem_cons_self _ _)]
    simp only [Bool.false_eq_true, if_false]
    exact ih (fun r hr => h r (List.mem_cons_of_mem _ hr))

/-- C5 counterexample: on a window holding one completed successful run the
poll job's digest reports `mttr_min = None` — null, not `0` — because
`monitor.analyze` maps an empty sample list to `None`. -/
theorem digest_mttr_is_none :
    (analyze false 0 [baseRun]).window = 1 ∧
    (analyze false 0 [baseRun]).mttr_min = none := by
  constructor <;> decide

/-- C5 (amended): in the API engine (`_calculate_mttr`) the MTTR is `0` on
an empty record set, `0` when no record is in a failure state, and `0`
whenever there are no recovery samples; each failure followed by a success
contributes the gap in minutes to the first subsequent success — on the spec
scenario (failure at 100, success at 160, failure at 300) exactly one
1-minute sample exists, so the MTTR is `1`, not an average of two.  The
poll job's digest instead reports null (`None`) when there are no
samples. -/
theorem calculate_mttr_amended :
    calculate_mttr [] = 0 ∧
    (∀ runs : List RunRecord, (∀ r ∈ runs, isFailedApi r = false) →
      calculate_mttr runs = 0) ∧
    (∀ runs : List RunRecord, mttrSamples (sortOldestFirst runs) = [] →
      calculate_mttr runs = 0) ∧
    calculate_mttr [mf1, ms2, mf3] = 1 := by
  have hzero : ∀ runs : List RunRecord, mttrSamples (sortOldestFirst runs) = [] →
      calculate_mttr runs = 0 := by
    intro runs hms
    unfold calculate_mttr
    by_cases hr : runs = []
    · rw [if_pos hr]
    · rw [if_neg hr]
      show (if mttrSamples (sortOldestFirst runs) = [] then (0 : ℚ)
        else (mttrSamples (sortOldestFirst runs)).sum /
          ((mttrSamples (sortOldestFirst runs)).length : ℚ)) = 0
      rw [if_pos hms]
  refine ⟨rfl, ?_, hzero, ?_⟩
  · intro runs h
    exact hzero runs (mttrSamples_nil_of_no_failure (fun r hr =>
      h r ((List.perm_insertionSort oldestFirst runs).mem_iff.mp hr)))
  · have hsort : sortOldestFirst [mf1, ms2, mf3] = [mf1, ms2, mf3] := by decide
    have hms : mttrSamples [mf1, ms2, mf3] =
        [(((160 : ℤ) - (100 : ℤ) : ℤ) : ℚ) / 60] := rfl
    unfold calculate_mttr
    rw [if_neg (by simp : ¬([mf1, ms2, mf3] : List RunRecord) = [])]
    show (if mttrSamples (sortOldestFirst [mf1, ms2, mf3]) = [] then (0 : ℚ)
      else (mttrSamples (sortOldestFirst [mf1, ms2, mf3])).sum /
        ((mttrSamples (sortOldestFirst [mf1, ms2, mf3])).length : ℚ)) = 1
    rw [hsort, hms]
    norm_num

/-- C5 witness: the no-failure case applied to a single successful run. -/
theorem calculate_mttr_amended_witness : calculate_mttr [baseRun] = 0 :=
  calculate_mttr_amended.2.1 [baseRun] (by decide)

/-! ### C6: success rate plus failure rate -/

theorem rhe_of_lt {x : ℚ} (h : x - ⌊x⌋ < 1/2) : rhe x = ⌊x⌋ := by
  unfold rhe
  rw [if_pos h]

theorem rhe_of_gt {x : ℚ} (h : 1/2 < x - ⌊x⌋) : rhe x = ⌊x⌋ + 1 := by
  have h' : ¬ x - ⌊x⌋ < 1/2 := by linarith
  unfold rhe
  rw [if_neg h', if_pos h]

theorem rhe_of_half_even {x : ℚ} (h : x - ⌊x⌋ = 1/2) (he : ⌊x⌋ % 2 = 0) :
    rhe x = ⌊x⌋ := by
  have h1 : ¬ x - ⌊x⌋ < 1/2 := by rw [h]; exact lt_irrefl _
  have h2 : ¬ (1/2 : ℚ) < x - ⌊x⌋ := by rw [h]; exact lt_irrefl _
  unfold rhe
  rw [if_neg h1, if_neg h2, if_pos he]

theorem rhe_of_half_odd {x : ℚ} (h : x - ⌊x⌋ = 1/2) (ho : ¬ ⌊x⌋ % 2 = 0) :
    rhe x = ⌊x⌋ + 1 := by
  have h1 : ¬ x - ⌊x⌋ < 1/2 := by rw [h]; exact lt_irrefl _
  have h2 : ¬ (1/2 : ℚ) < x - ⌊x⌋ := by rw [h]; exact lt_irrefl _
  unfold rhe
  rw [if_neg h1, if_neg h2, if_neg ho]

theorem floor_compl_int {x : ℚ} (N : ℤ) (h : x - ⌊x⌋ = 0) :
    ⌊(N : ℚ) - x⌋ = N - ⌊x⌋ := by
  have hx : x = ((⌊x⌋ : ℤ) : ℚ) := by linarith
  rw [hx]
  rw [show ((N : ℚ) - ((⌊x⌋ : ℤ) : ℚ)) = (((N - ⌊x⌋ : ℤ) : ℚ)) by push_cast; ring]
  exact Int.floor_intCast _

theorem floor_compl_frac {x : ℚ} (N : ℤ) (h : 0 < x - ⌊x⌋) :
    ⌊(N : ℚ) - x⌋ = N - ⌊x⌋ - 1 := by
  have hfl : (⌊x⌋ : ℚ) ≤ x := Int.floor_le x
  have hfu : x < ⌊x⌋ + 1 := Int.lt_floor_add_one x
  rw [Int.floor_eq_iff]
  constructor
  · push_cast
    linarith
  · push_cast
    linarith

theorem rhe_add_compl (N : ℤ) (hN : N % 2 = 0) (x : ℚ) :
    rhe x + rhe ((N : ℚ) - x) = N := by
  have hfl : (⌊x⌋ : ℚ) ≤ x := Int.floor_le x
  have hfu : x < ⌊x⌋ + 1 := Int.lt_floor_add_one x
  rcases eq_or_lt_of_le (sub_nonneg.mpr hfl) with hz | hpos
  · have hz' : x - ⌊x⌋ = 0 := hz.symm
    have hfc : ⌊(N : ℚ) - x⌋ = N - ⌊x⌋ := floor_compl_int N hz'
    have hcf : ((N : ℚ) - x) - ⌊(N : ℚ) - x⌋ = 0 := by
      rw [hfc]
      push_cast
      linarith
    rw [rhe_of_lt (by rw [hz']; norm_num), rhe_of_lt (by rw [hcf]; norm_num), hfc]
    ring
  · have hfc : ⌊(N : ℚ) - x⌋ = N - ⌊x⌋ - 1 := floor_compl_frac N hpos
    have hcf : ((N : ℚ) - x) - ⌊(N : ℚ) - x⌋ = 1 - (x - ⌊x⌋) := by
      rw [hfc]
      push_cast
      ring
    rcases lt_trichotomy (x - ⌊x⌋) (1/2) with hlt | heq | hgt
    · rw [rhe_of_lt hlt, rhe_of_gt (by rw [hcf]; linarith), hfc]
      ring
    · have hcf' : ((N : ℚ) - x) - ⌊(N : ℚ) - x⌋ = 1/2 := by
        rw [hcf, heq]
        norm_num
      by_cases hev : ⌊x⌋ % 2 = 0
      · rw [rhe_of_half_even heq hev,
          rhe_of_half_odd hcf' (by rw [hfc]; omega), hfc]
        ring
      · rw [rhe_of_half_odd heq hev,
          rhe_of_half_even hcf' (by rw [hfc]; omega), hfc]
        ring
    · rw [rhe_of_gt hgt, rhe_of_lt (by rw [hcf]; linarith), hfc]
      ring

theorem pyRound2_add_compl (s : ℚ) : pyRound2 s + pyRound2 (100 - s) = 100 := by
  have h100 : (100 : ℚ) * (100 - s) = ((10000 : ℤ) : ℚ) - 100 * s := by
    push_cast
    ring
  unfold pyRound2
  rw [h100, div_add_div_same, ← Int.cast_add, rhe_add_compl 10000 (by norm_num) (100 * s)]
  norm_num

/-- C6 (confirmed): the overview's reported `success_rate + failure_rate` is
exactly `100` whenever there is a completed run, both are `0` when there is
none; `success_rate` is `successful/completed × 100` and `failure_rate` is
`100 − success_rate` (rounded to 2 decimals at the output boundary); a run
is failed in the API paths iff its conclusion is `failure` or `timed_out`
(`cancelled` excluded), and the failure-analysis rate is likewise `0` with
no completed runs. -/
theorem overview_rates_spec (runs : List RunRecord) :
    (completedOf runs ≠ [] →
      (analytics_overview_rates runs).1 + (analytics_overview_rates runs).2 = 100) ∧
    (completedOf runs = [] →
      (analytics_overview_rates runs).1 = 0 ∧ (analytics_overview_rates runs).2 = 0) ∧
    (∀ r : RunRecord, isFailedApi r = true ↔
      (r.conclusion = some "failure" ∨ r.conclusion = some "timed_out")) ∧
    (completedOf runs = [] → failure_analysis_rate runs = 0) := by
  refine ⟨?_, ?_, ?_, ?_⟩
  · intro h
    show (if completedOf runs = [] then ((0 : ℚ), (0 : ℚ))
      else (pyRound2 (rawSuccessRate (completedOf runs)),
        pyRound2 (100 - rawSuccessRate (completedOf runs)))).1 +
      (if completedOf runs = [] then ((0 : ℚ), (0 : ℚ))
      else (pyRound2 (rawSuccessRate (completedOf runs)),
        pyRound2 (100 - rawSuccessRate (completedOf runs)))).2 = 100
    rw [if_neg h]
    exact pyRound2_add_compl _
  · intro h
    simp [analytics_overview_rates, h]
  · intro r
    simp [isFailedApi]
  · intro h
    simp [failure_analysis_rate, h]

/-- C6 witness: the sum property on one success and one failure. -/
theorem overview_rates_spec_witness :
    (analytics_overview_rates [c6s, c6f]).1 + (analytics_overview_rates [c6s, c6f]).2 = 100 :=
  (overview_rates_spec [c6s, c6f]).1 (by decide)

/-! ### C8: duration definition and exclusion of non-positive durations -/

theorem monitorDurations_length (completed : List RunRecord) :
    (monitorDurations completed).length =
      (completed.filter fun r => r.run_started_at.isSome && r.updated_at.isSome).length := by
  induction completed with
  | nil => rfl
  | cons a l ih =>
    cases ha : a.run_started_at <;> cases hb : a.updated_at <;>
      simpa [monitorDurations, List.filterMap_cons, List.filter_cons, ha, hb] using ih

/-- C8 counterexample: a completed run with `run_started_at = updated_at`
(duration exactly `0` seconds) is excluded from the API duration samples,
but the poll job's digest average still counts it: on a window with only
this record the digest reports an average of `0` minutes instead of having
no duration sample. -/
theorem zero_duration_counted_by_digest :
    durationsMinutes [zeroDurRun] = [] ∧
    (analyze false 0 [zeroDurRun]).avg_duration_min = some 0 := by
  refine ⟨by decide, ?_⟩
  have hsub : monitorSubset 0 [zeroDurRun] = [zeroDurRun] := by decide
  have hcomp : [zeroDurRun].filter isCompleted = [zeroDurRun] := by decide
  have hdur : monitorDurations [zeroDurRun] = [0] := by
    norm_num [monitorDurations, List.filterMap_cons, zeroDurRun, baseRun]
  have havg : monitorAvg ([zeroDurRun].filter isCompleted) = some 0 := by
    rw [hcomp]
    norm_num [monitorAvg, hdur, pyRound2_zero]
  show (monitorDigestOf false (monitorSubset 0 [zeroDurRun])).avg_duration_min = some 0
  rw [hsub]
  unfold monitorDigestOf
  rw [if_neg (by simp : ¬([zeroDurRun] : List RunRecord) = [])]
  exact havg

/-- C8 (amended): per-record duration is `updated_at − run_started_at` in
seconds; the API duration statistics consume the `duration / 60` minutes of
exactly the records with positive duration (non-positive or unavailable
durations are excluded); the poll job's digest average instead includes a
sample for every completed record with both timestamps parseable, zero or
negative durations included. -/
theorem duration_stats_amended :
    (∀ runs : List RunRecord, ∀ x ∈ durationsMinutes runs, 0 < x) ∧
    (∀ (runs : List RunRecord) (r : RunRecord), r ∈ runs → 0 < calculate_duration r →
      ((calculate_duration r : ℚ) / 60) ∈ durationsMinutes runs) ∧
    (∀ (r : RunRecord) (s u : Nat), r.run_started_at = some s → r.updated_at = some u →
      calculate_duration r = (u : ℤ) - (s : ℤ)) ∧
    (∀ completed : List RunRecord, (monitorDurations completed).length =
      (completed.filter fun r => r.run_started_at.isSome && r.updated_at.isSome).length) := by
  refine ⟨?_, ?_, ?_, monitorDurations_length⟩
  · intro runs x hx
    obtain ⟨r, _, hfr⟩ := List.mem_filterMap.1 hx
    by_cases hd : 0 < calculate_duration r
    · rw [if_pos hd] at hfr
      injection hfr with hfr
      subst hfr
      exact div_pos (by exact_mod_cast hd) (by norm_num)
    · rw [if_neg hd] at hfr
      cases hfr
  · intro runs r hr hd
    exact List.mem_filterMap.2 ⟨r, hr, by rw [if_pos hd]⟩
  · intro r s u hs hu
    unfold calculate_duration
    rw [hs, hu]

/-- C8 witness: the 60-second base run contributes its 1-minute sample. -/
theorem duration_stats_amended_witness :
    ((calculate_duration baseRun : ℚ) / 60) ∈ durationsMinutes [baseRun] :=
  duration_stats_amended.2.1 [baseRun] baseRun (by decide) (by decide)

end PipelineMonitor
